import Mathlib


/-!
Verification development for the loosh-inference-miner node.

This file gives a shallow embedding, in Lean 4, of the core of the miner:
the MLTS session layer (src/miner/network/fiber_server.py), the request
handlers (src/miner/endpoints/fiber.py, availability.py, inference.py),
the backend adapters (src/miner/core/llms/), the backend registry
(src/miner/core/llms/__init__.py), and the admission pipeline
(src/miner/miner_server.py).  Python dicts are modelled as association
lists (keys unique), wall-clock times as integers (seconds), Fernet
tokens symbolically as records carrying the encrypting key identifier,
the embedded timestamp and the plaintext.  Stateful code is modelled by
explicit state passing; the cooperative-concurrency admission pipeline
is modelled as an executable labelled transition system.
-/

/-- Association-list lookup, modelling Python dict indexing.  Dicts have
unique keys, so first-match lookup is exact. -/
def alookup {β : Type} : List (String × β) → String → Option β
  | [], _ => none
  | (k, v) :: rest, key => if k = key then some v else alookup rest key

/-- Association-list update, modelling Python dict assignment: replace in
place when the key is present, append otherwise. -/
def aset {β : Type} : List (String × β) → String → β → List (String × β)
  | [], key, val => [(key, val)]
  | (k, v) :: rest, key, val =>
      if k = key then (k, val) :: rest else (k, v) :: aset rest key val

/-- Association-list deletion, modelling Python dict del on a key (keys
are unique in a dict, so removing every occurrence is exact). -/
def aerase {β : Type} : List (String × β) → String → List (String × β)
  | [], _ => []
  | (k, v) :: rest, key =>
      if k = key then aerase rest key else (k, v) :: aerase rest key

/-! ## Symbolic Fernet (cryptography.fernet)

A Fernet token is modelled as the encrypting key identifier, the
timestamp embedded at encryption time, and the plaintext.  Decryption
(`Fernet.decrypt`) fails on a key mismatch (MAC failure), when a ttl is
supplied and `timestamp + ttl < current_time`, or when
`current_time + 60 < timestamp` (the library clock-skew bound). -/

/-- Maximum accepted clock skew of the Fernet implementation, seconds. -/
def fernetMaxClockSkew : Int := 60

structure FernetToken (α : Type) where
  tokKey : Nat
  tokTs : Int
  tokPlain : α
deriving DecidableEq, Repr

/-- Fernet encryption at current time now: token carries key, time, plaintext. -/
def fernetEncrypt {α : Type} (key : Nat) (now : Int) (p : α) : FernetToken α :=
  ⟨key, now, p⟩

/-- Fernet decryption with optional ttl, at current time now. -/
def fernetDecrypt {α : Type} (key : Nat) (ttl : Option Int) (now : Int)
    (tok : FernetToken α) : Option α :=
  if tok.tokKey ≠ key then none
  else if (match ttl with
           | some t => decide (tok.tokTs + t < now)
           | none => false) then none
  else if now + fernetMaxClockSkew < tok.tokTs then none
  else some tok.tokPlain

/-! ## Wire payload model

The challenge body, once Fernet-decrypted, is a UTF-8 string that the
server `json.loads`-parses and then validates as an `InferenceRequest`
(after popping the optional `metadata` key).  The embedding represents a
plaintext by which of those stages it survives. -/

structure ChatMessage where
  role : String
  content : Option String
deriving DecidableEq, Repr

/-- InferenceRequest (src/miner/endpoints/inference.py): optional legacy
prompt, optional OpenAI-style messages, advisory model, generation
parameters, optional tools.  Tool definitions and tool choice are
forwarded opaquely and are modelled as opaque identifiers; the float
sampling parameters are never computed with by the miner, only passed
through, and are modelled as integers in thousandths. -/
structure InferenceRequest where
  prompt : Option String
  messages : Option (List ChatMessage)
  model : Option String
  max_tokens : Nat
  temperature : Int
  top_p : Int
  tools : Option (List Nat)
  tool_choice : Option Nat
deriving DecidableEq, Repr

/-- Modelled from the spec: miner/timing.py is not under src/ (only its
callers in src/miner/endpoints/fiber.py are).  Per spec 4.7 a pipeline
timing record is an ordered list of named stages each holding a start
timestamp and an optional end timestamp; stages are appended, never
mutated, and serialization is symmetric JSON. -/
structure TimingStage where
  stageName : String
  startTs : Int
  endTs : Option Int
deriving DecidableEq, Repr

/-- Modelled from the spec: miner/timing.py PipelineTiming, an ordered
list of stages; add appends a stage with start equal to now and no end,
finish sets the end of that stage to now. -/
structure PipelineTiming where
  stages : List TimingStage
deriving DecidableEq, Repr

/-- Modelled from the spec: PipelineTiming.add followed by finishing the
stage at the same instant is appending a completed stage. -/
def timingAddFinished (t : PipelineTiming) (nm : String) (now : Int) : PipelineTiming :=
  ⟨t.stages ++ [⟨nm, now, some now⟩]⟩

/-- Modelled from the spec: appending a stage that is never finished
(start recorded, end left unset). -/
def timingAddOpen (t : PipelineTiming) (nm : String) (now : Int) : PipelineTiming :=
  ⟨t.stages ++ [⟨nm, now, none⟩]⟩

/-- Challenge metadata dict: the optional timing record.  The outer
Option is absence of the key, the inner Option is a present value that
fails to restore into a PipelineTiming (not a dict, or from_dict raises). -/
structure MetaDict where
  timing_data : Option (Option PipelineTiming)
deriving DecidableEq, Repr

/-- A decrypted JSON object: either a dict that fails InferenceRequest
validation (pydantic raises), or a valid envelope together with the
popped metadata. -/
inductive PlainDict where
  | bad (meta : Option MetaDict)
  | good (meta : Option MetaDict) (req : InferenceRequest)
deriving DecidableEq, Repr

/-- A Fernet plaintext: either not valid JSON, or a JSON object. -/
inductive Plain where
  | notJson (s : String)
  | dict (d : PlainDict)
deriving DecidableEq, Repr

/-- json.loads on a decrypted plaintext: fails on non-JSON. -/
def jsonLoads : Plain → Option PlainDict
  | .notJson _ => none
  | .dict d => some d

/-! ## MLTS session layer (src/miner/network/fiber_server.py) -/

/-- One entry of the symmetric-key cache: the Fernet key and the
absolute expiration time (insertion time plus ttl). -/
structure SessionEntry where
  fernetKey : Nat
  expiration : Int
deriving DecidableEq, Repr

/-- FiberServer mutable state: the nested symmetric-key cache
(validator hotkey to (uuid to (Fernet key, expiration))) and the nonce
cache (nonce to first-seen timestamp). -/
structure FiberState where
  cache : List (String × List (String × SessionEntry))
  nonces : List (String × Int)
deriving DecidableEq, Repr

/-- Lookup of a session entry by (validator, uuid) through the nested cache. -/
def lookupSession (st : FiberState) (validator uuid : String) : Option SessionEntry :=
  match alookup st.cache validator with
  | none => none
  | some inner => alookup inner uuid

/-- The replay-protection test of exchange_symmetric_key: the nonce is
already cached and its recorded timestamp is younger than the handshake
timeout. -/
def replayHit (nonces : List (String × Int)) (nonce : String)
    (now timeout : Int) : Bool :=
  match alookup nonces nonce with
  | some t0 => decide (now - t0 < timeout)
  | none => false

/-- FiberServer.exchange_symmetric_key.  The RSA-OAEP unwrap of the
hex-encoded encrypted key is modelled by an Option: some k is a
well-formed encryption of key k under the node public key, none makes
the decrypt raise (caught, returning false).  The nonce is recorded
before the unwrap, exactly as in the source. -/
def exchange_symmetric_key (cfgTtl timeout : Int) (st : FiberState) (now : Int)
    (encKey : Option Nat) (uuid : String) (nonce : String) (validator : String) :
    Bool × FiberState :=
  if replayHit st.nonces nonce now timeout then
    (false, st)
  else
    let st1 : FiberState := { st with nonces := aset st.nonces nonce now }
    match encKey with
    | none => (false, st1)
    | some k =>
        let inner := (alookup st1.cache validator).getD []
        let inner1 := aset inner uuid ⟨k, now + cfgTtl⟩
        (true, { st1 with cache := aset st1.cache validator inner1 })

/-- FiberServer.decrypt_challenge_payload: miss on validator or uuid
returns none; an expired entry is deleted from the inner dict and none
is returned; otherwise the payload is Fernet-decrypted with
ttl = key_ttl_seconds and JSON-parsed, every failure returning none with
the cache untouched. -/
def decrypt_challenge_payload (keyTtl : Int) (st : FiberState) (now : Int)
    (validator uuid : String) (payload : FernetToken Plain) :
    Option PlainDict × FiberState :=
  match alookup st.cache validator with
  | none => (none, st)
  | some inner =>
    match alookup inner uuid with
    | none => (none, st)
    | some entry =>
      if now > entry.expiration then
        (none, { st with cache := aset st.cache validator (aerase inner uuid) })
      else
        match fernetDecrypt entry.fernetKey (some keyTtl) now payload with
        | none => (none, st)
        | some plain =>
          match jsonLoads plain with
          | none => (none, st)
          | some d => (some d, st)

/-! ## Backend adapters (src/miner/core/llms/)

The three adapters send the same chat-completion HTTP request and differ
only in how they read the reply.  The upstream reply is modelled
structurally; transport failures and non-2xx replies are outside the
extraction functions (the adapters re-raise them).  An empty choices
list makes the Python indexing raise, modelled by none. -/

/-- Python string truthiness for the form x or d. -/
def pyOrStr (o : Option String) (d : String) : String :=
  match o with
  | none => d
  | some s => if s = "" then d else s

structure UpstreamFunction where
  funcName : String
  arguments : String
deriving DecidableEq, Repr

structure UpstreamToolCall where
  callId : String
  callType : String
  function : UpstreamFunction
deriving DecidableEq, Repr

structure UpstreamMessage where
  content : Option String
  tool_calls : Option (List UpstreamToolCall)
deriving DecidableEq, Repr

structure UpstreamChoice where
  message : UpstreamMessage
  finish_reason : Option String
deriving DecidableEq, Repr

structure UpstreamUsage where
  prompt_tokens : Option Nat
  completion_tokens : Option Nat
  total_tokens : Option Nat
deriving DecidableEq, Repr

structure UpstreamResponse where
  choices : List UpstreamChoice
  usage : Option UpstreamUsage
deriving DecidableEq, Repr

/-- TokenUsage (src/miner/core/llms/LLMService.py), zero-filled default. -/
structure TokenUsage where
  prompt_tokens : Nat
  completion_tokens : Nat
  total_tokens : Nat
deriving DecidableEq, Repr

/-- The tool-call dict built identically by all three adapters. -/
structure ToolCallDict where
  callId : String
  callType : String
  funcName : String
  arguments : String
deriving DecidableEq, Repr

/-- LLMResponse (src/miner/core/llms/LLMService.py); the dataclass
defaults are finish_reason stop and zero-filled usage. -/
structure LLMResponse where
  content : String
  tool_calls : Option (List ToolCallDict)
  finish_reason : String
  usage : TokenUsage
deriving DecidableEq, Repr

def mapToolCall (tc : UpstreamToolCall) : ToolCallDict :=
  ⟨tc.callId, tc.callType, tc.function.funcName, tc.function.arguments⟩

/-- LlamaCppService.chat_completion response extraction
(src/miner/core/llms/llm_llamacpp.py lines 89 to 126): content from the
first choice, finish_reason from the server with empty or missing
defaulting to stop and normalization to tool_calls when tool calls are
present, usage copied from the server with missing fields zeroed and a
zero-filled default when the server omits the usage block. -/
def llamacpp_chat_completion (r : UpstreamResponse) : Option LLMResponse :=
  match r.choices with
  | [] => none
  | choice :: _ =>
    let content := choice.message.content.getD ""
    let finish0 := pyOrStr choice.finish_reason "stop"
    let tcf : Option (List ToolCallDict) × String :=
      match choice.message.tool_calls with
      | some (tc :: rest) =>
          (some ((tc :: rest).map mapToolCall),
           if finish0 = "stop" then "tool_calls" else finish0)
      | _ => (none, finish0)
    let usage : TokenUsage :=
      match r.usage with
      | some us => ⟨us.prompt_tokens.getD 0, us.completion_tokens.getD 0,
                    us.total_tokens.getD 0⟩
      | none => ⟨0, 0, 0⟩
    some ⟨content, tcf.1, tcf.2, usage⟩

/-- VLLMService.chat_completion response extraction
(src/miner/core/llms/llm_vllm.py lines 85 to 103): content and tool
calls from the first choice only; the LLMResponse is built without
finish_reason or usage, so the dataclass defaults apply. -/
def vllm_chat_completion (r : UpstreamResponse) : Option LLMResponse :=
  match r.choices with
  | [] => none
  | choice :: _ =>
    let content := choice.message.content.getD ""
    let tool_calls : Option (List ToolCallDict) :=
      match choice.message.tool_calls with
      | some (tc :: rest) => some ((tc :: rest).map mapToolCall)
      | _ => none
    some ⟨content, tool_calls, "stop", ⟨0, 0, 0⟩⟩

/-- OllamaService.chat_completion response extraction
(src/miner/core/llms/llm_ollama.py lines 90 to 108): identical in shape
to the vLLM adapter, likewise dropping finish_reason and usage. -/
def ollama_chat_completion (r : UpstreamResponse) : Option LLMResponse :=
  match r.choices with
  | [] => none
  | choice :: _ =>
    let content := choice.message.content.getD ""
    let tool_calls : Option (List ToolCallDict) :=
      match choice.message.tool_calls with
      | some (tc :: rest) => some ((tc :: rest).map mapToolCall)
      | _ => none
    some ⟨content, tool_calls, "stop", ⟨0, 0, 0⟩⟩

/-! ## Backend registry (src/miner/core/llms/__init__.py) -/

/-- get_backend (src/miner/core/llms/__init__.py lines 46 to 71): a
known name resolves to its registered constructor; an unknown name
falls back to the first registered constructor when the registry is
non-empty; an empty registry raises ValueError.  The source returns the
constructor applied to the config; the embedding resolves the
constructor, the config argument being fixed. -/
def get_backend {β : Type} (backends : List (String × β)) (name : String) :
    Except String β :=
  match alookup backends name with
  | some ctor => .ok ctor
  | none =>
    match backends with
    | [] => .error "No backends available. Check entry points configuration."
    | (_, ctor) :: _ => .ok ctor

/-! ## Inference endpoint (src/miner/endpoints/inference.py) -/

/-- The configuration fields of MinerConfig (src/miner/config/config.py)
consumed by the embedded core. -/
structure MinerConfig where
  test_mode : Bool
  default_model : String
  llm_backend : String
  fiber_key_ttl_seconds : Int
  fiber_handshake_timeout_seconds : Int
  max_concurrent_requests : Nat
deriving DecidableEq, Repr

/-- The argument record of one chat_completion invocation on the backend. -/
structure BackendCall where
  messages : List ChatMessage
  model : String
  max_tokens : Nat
  temperature : Int
  top_p : Int
  tools : Option (List Nat)
  tool_choice : Option Nat
deriving DecidableEq, Repr

/-- InferenceResponse (src/miner/endpoints/inference.py). -/
structure InferenceResponse where
  response_text : String
  response_time_ms : Nat
  tool_calls : Option (List ToolCallDict)
  finish_reason : String
  usage : TokenUsage
deriving DecidableEq, Repr

/-- The fixed test-mode response text up to the random phrase. -/
def testModeText : String :=
  "[TEST MODE] Inference request received successfully. Test mode is enabled - no actual inference was performed. "

/-- The test-mode prompt text joined from messages: space-joined truthy
contents, mirroring the generator over m.get of content. -/
def joinContents (ms : List ChatMessage) : String :=
  String.intercalate " "
    ((ms.filterMap (fun m => m.content)).filter (fun s => s ≠ ""))

/-- The inference handler (src/miner/endpoints/inference.py lines 110 to
238).  In test mode a canned text with estimated usage is returned and
no backend call happens.  In normal mode messages take precedence, a
truthy legacy prompt is lifted to a single user message, a missing
envelope raises 400, the configured default_model is substituted for
any peer-supplied model, and the backend reply is repackaged; a backend
exception raises 500.  The random phrase and measured elapsed
milliseconds are parameters; the second component of a successful
result records the chat_completion invocation made (none in test
mode), the first is the response returned by the endpoint. -/
def inference (cfg : MinerConfig) (req : InferenceRequest)
    (backend : BackendCall → Except String LLMResponse)
    (rnd : String) (elapsedMs : Nat) :
    Except Nat (InferenceResponse × Option BackendCall) :=
  if cfg.test_mode then
    let test_response_text := testModeText ++ rnd
    let prompt_text :=
      match req.messages with
      | some (m :: rest) => joinContents (m :: rest)
      | _ => pyOrStr req.prompt ""
    let ept := max 1 (prompt_text.length / 4)
    let ect := max 1 (test_response_text.length / 4)
    .ok (⟨test_response_text, elapsedMs, none, "stop", ⟨ept, ect, ept + ect⟩⟩, none)
  else
    match (match req.messages with
           | some ms => some ms
           | none =>
             match req.prompt with
             | some p => if p ≠ "" then some [⟨"user", some p⟩] else none
             | none => none) with
    | none => .error 400
    | some msgs =>
      let call : BackendCall :=
        { messages := msgs, model := cfg.default_model,
          max_tokens := req.max_tokens, temperature := req.temperature,
          top_p := req.top_p, tools := req.tools,
          tool_choice := req.tool_choice }
      match backend call with
      | .error _ => .error 500
      | .ok r =>
          .ok (⟨r.content, elapsedMs, r.tool_calls, r.finish_reason, r.usage⟩,
               some call)

/-- The usage block the llamacpp adapter is specified to produce: copied
from the upstream reply, zero-filled exactly when the server omits it. -/
def usageFromUpstream (r : UpstreamResponse) : TokenUsage :=
  match r.usage with
  | some us => ⟨us.prompt_tokens.getD 0, us.completion_tokens.getD 0,
                us.total_tokens.getD 0⟩
  | none => ⟨0, 0, 0⟩

/-- An upstream reply carrying a non-zero usage block, a tool call and
finish_reason stop. -/
def c7Resp : UpstreamResponse :=
  { choices := [⟨⟨some "ok", some [⟨"id1", "function", ⟨"f", ""⟩⟩]⟩, some "stop"⟩],
    usage := some ⟨some 3, some 5, some 8⟩ }

/-! ## Challenge and availability handlers
(src/miner/endpoints/fiber.py, src/miner/endpoints/availability.py)

The handlers read the admission globals of src/miner/miner_server.py
(semaphore, pending queue, active set) and the backend readiness flag
lives beside them; the per-request view models those globals as a
server-state record.  Exceptions carrying HTTP statuses are modelled as
error codes.  The cooperative single-request view is sequential: both
the fast path and the queued path run the same process_request and wrap
its ciphertext in the same response, so the at-capacity branch does not
change the response computed for one request (concurrency itself is
modelled separately below). -/

/-- The response metadata dict re-attached by the challenge handler. -/
structure MetaOut where
  timing_data : PipelineTiming
deriving DecidableEq, Repr

/-- The response dict that is json.dumps-ed and encrypted: the
InferenceResponse fields plus the optional re-attached metadata. -/
structure RespPayload where
  resp : InferenceResponse
  metadata : Option MetaOut
deriving DecidableEq, Repr

/-- The outcome of the challenge endpoint: an HTTP status, and for 200
the content type, headers and binary ciphertext body. -/
structure HandlerResult where
  status : Nat
  contentType : Option String
  headers : List (String × String)
  body : Option (FernetToken RespPayload)
deriving DecidableEq, Repr

/-- The miner_server globals visible to the handlers: the FiberServer
state, whether the request semaphore and the pending queue have been
created by the lifespan startup, the backend readiness flag set by the
readiness poller, and the loaded miner hotkey address. -/
structure MinerServerState where
  fiberSt : FiberState
  semInitialized : Bool
  queueInitialized : Bool
  backendReady : Bool
  minerHotkey : Option String
deriving DecidableEq, Repr

/-- The timing record restored from challenge metadata: present only
when the metadata dict is truthy, carries the key, and the value
restores into a PipelineTiming. -/
def metaTiming : Option MetaDict → Option PipelineTiming
  | some m =>
      match m.timing_data with
      | some (some t) => some t
      | _ => none
  | none => none

/-- process_request (src/miner/endpoints/fiber.py lines 117 to 225):
decrypt the payload (400 on failure), pop the metadata and restore the
timing record, validate the envelope (500 when pydantic raises), run
the inference handler, append the miner_inference and miner_response
stages around it (the miner_response stage is serialized before it is
finished, so its end stays unset), re-look-up the session key and
refuse with 400 when missing or expired, and encrypt the response dict
with the same session key.  All time.time() readings within the one
request are modelled by the single instant now. -/
def process_request (cfg : MinerConfig) (st : FiberState) (now : Int)
    (validator uuid : String) (payload : FernetToken Plain)
    (backend : BackendCall → Except String LLMResponse) (rnd : String)
    (elapsedMs : Nat) :
    Except Nat (FernetToken RespPayload) × FiberState :=
  let dec := decrypt_challenge_payload cfg.fiber_key_ttl_seconds st now
    validator uuid payload
  match dec.1 with
  | none => (.error 400, dec.2)
  | some (.bad _) => (.error 500, dec.2)
  | some (.good meta req) =>
    let pt := metaTiming meta
    match inference cfg req backend rnd elapsedMs with
    | .error code => (.error code, dec.2)
    | .ok (resp, _) =>
      let respPayload : RespPayload :=
        match pt with
        | some t =>
            ⟨resp, some ⟨timingAddOpen
              (timingAddFinished t "miner_inference" now) "miner_response" now⟩⟩
        | none => ⟨resp, none⟩
      match alookup dec.2.cache validator with
      | none => (.error 400, dec.2)
      | some inner =>
        match alookup inner uuid with
        | none => (.error 400, dec.2)
        | some entry =>
          if now > entry.expiration then (.error 400, dec.2)
          else (.ok (fernetEncrypt entry.fernetKey now respPayload), dec.2)

/-- receive_encrypted_challenge (src/miner/endpoints/fiber.py lines 87
to 297): 503 when the request semaphore or pending queue is not yet
created; otherwise the body ciphertext is processed (immediately when
capacity is available, through the FIFO queue otherwise, both arriving
at the same process_request) and the resulting ciphertext is returned
as application/octet-stream with the session UUID and the miner hotkey
address in the response headers.  The backendReady flag of the server
state is not consulted anywhere in this handler. -/
def receive_encrypted_challenge (cfg : MinerConfig) (srv : MinerServerState)
    (atCapacity : Bool) (now : Int) (validator uuid : String)
    (payload : FernetToken Plain)
    (backend : BackendCall → Except String LLMResponse) (rnd : String)
    (elapsedMs : Nat) : HandlerResult × MinerServerState :=
  if ¬ (srv.semInitialized && srv.queueInitialized) then
    (⟨503, none, [], none⟩, srv)
  else
    let pr := process_request cfg srv.fiberSt now validator uuid payload
      backend rnd elapsedMs
    let srv1 := { srv with fiberSt := pr.2 }
    let wrap : HandlerResult :=
      match pr.1 with
      | .error code => ⟨code, none, [], none⟩
      | .ok tok =>
          ⟨200, some "application/octet-stream",
           [("x-fiber-symmetric-key-uuid", uuid),
            ("x-fiber-miner-hotkey-ss58", srv.minerHotkey.getD "")],
           some tok⟩
    if atCapacity then (wrap, srv1) else (wrap, srv1)

/-- The body of the availability response. -/
inductive AvailabilityBody where
  | available
  | unavailable (reason : String)
deriving DecidableEq, Repr

/-- check_availability (src/miner/endpoints/availability.py lines 21 to
93): 200 with available false and reason Miner initializing while the
request semaphore or pending queue is missing, 200 with available true
otherwise.  The backendReady flag of the server state is not consulted. -/
def check_availability (srv : MinerServerState) : Nat × AvailabilityBody :=
  if ¬ (srv.semInitialized && srv.queueInitialized) then
    (200, .unavailable "Miner initializing")
  else
    (200, .available)

def c1cfg : MinerConfig := ⟨true, "m", "llamacpp", 10, 30, 1⟩

def c1srv : MinerServerState :=
  ⟨⟨[("v1", [("u1", ⟨7, 10⟩)])], []⟩, true, true, true, some "minerhk"⟩

def c1req : InferenceRequest := ⟨some "hi", none, none, 8, 700, 950, none, none⟩

def c1backend : BackendCall → Except String LLMResponse :=
  fun _ => .error "unused"

/-- The test-mode inference output for c1req with random phrase r and 3
elapsed milliseconds. -/
def c1resp : InferenceResponse :=
  ⟨testModeText ++ "r", 3, none, "stop", ⟨1, 28, 29⟩⟩

def c2cfg : MinerConfig := ⟨true, "m", "llamacpp", 10, 30, 1⟩

/-- A server state whose admission structures are initialized but whose
backend readiness flag is still false. -/
def c2srv : MinerServerState :=
  ⟨⟨[("v1", [("u1", ⟨7, 10⟩)])], []⟩, true, true, false, some "minerhk"⟩

def c2req : InferenceRequest := ⟨some "hi", none, none, 8, 700, 950, none, none⟩

def c2backend : BackendCall → Except String LLMResponse :=
  fun _ => .error "unused"

/-! ## Admission pipeline as a labelled transition system
(src/miner/miner_server.py lines 121 to 161 and
src/miner/endpoints/fiber.py lines 227 to 297)

Requests are identified by arrival index.  The scheduler model follows
the cooperative runtime: each event is one atomic block of code with no
suspension point inside it.  On arrival the handler reads the semaphore
value; with a permit free it acquires one and runs the worker holding
the permit until completion (fast path), otherwise it appends the
request to the pending FIFO.  The pump dequeues one request at a time
(pumpDequeue), then acquires a permit, creates the worker task and
leaves the async-with block at once, releasing the permit while the
worker is still running (pumpLaunch): the net semaphore change of a
pump launch is zero.  Completion of a fast-path worker releases its
permit; completion of a pump-launched worker releases nothing, its
permit having been returned at launch. -/

structure AdmState where
  sem : Nat
  pending : List Nat
  pumpSlot : Option Nat
  runningFast : List Nat
  runningQueued : List Nat
  arrivals : Nat
  enqueueOrder : List Nat
  queuedLaunchOrder : List Nat
  completed : List Nat
deriving DecidableEq, Repr

inductive AdmEvent where
  | arrive
  | pumpDequeue
  | pumpLaunch
  | completeFast (r : Nat)
  | completeQueued (r : Nat)
deriving DecidableEq, Repr

/-- The lifespan startup state: a semaphore with N permits, empty queue. -/
def initialAdmState (N : Nat) : AdmState := ⟨N, [], none, [], [], 0, [], [], []⟩

/-- One scheduler step.  Events whose enabling condition fails leave the
state unchanged. -/
def admStep (s : AdmState) (e : AdmEvent) : AdmState :=
  match e with
  | .arrive =>
      let id := s.arrivals
      if s.sem = 0 then
        { s with pending := s.pending ++ [id], arrivals := id + 1,
                 enqueueOrder := s.enqueueOrder ++ [id] }
      else
        { s with sem := s.sem - 1, runningFast := s.runningFast ++ [id],
                 arrivals := id + 1 }
  | .pumpDequeue =>
      match s.pumpSlot, s.pending with
      | none, r :: rest => { s with pumpSlot := some r, pending := rest }
      | _, _ => s
  | .pumpLaunch =>
      match s.pumpSlot with
      | some r =>
          if s.sem = 0 then s
          else
            { s with pumpSlot := none,
                     runningQueued := s.runningQueued ++ [r],
                     queuedLaunchOrder := s.queuedLaunchOrder ++ [r] }
      | none => s
  | .completeFast r =>
      if s.runningFast.contains r then
        { s with runningFast := s.runningFast.erase r, sem := s.sem + 1,
                 completed := s.completed ++ [r] }
      else s
  | .completeQueued r =>
      if s.runningQueued.contains r then
        { s with runningQueued := s.runningQueued.erase r,
                 completed := s.completed ++ [r] }
      else s

/-- Run a trace of scheduler events from the startup state with N permits. -/
def runAdm (N : Nat) (evs : List AdmEvent) : AdmState :=
  evs.foldl admStep (initialAdmState N)

/-- Number of challenge workers concurrently executing the pipeline. -/
def inFlight (s : AdmState) : Nat :=
  s.runningFast.length + s.runningQueued.length

/-- The requests that were enqueued and have not yet been launched,
behind the ones already launched, in pump order. -/
def pumpView (s : AdmState) : List Nat :=
  s.queuedLaunchOrder
    ++ (match s.pumpSlot with | some r => [r] | none => [])
    ++ s.pending

/-- The overload trace with one permit: request 0 takes the fast path,
requests 1 and 2 queue behind it; after 0 completes the pump launches 1
and, its permit having been released at launch, immediately launches 2
as well. -/
def c3Trace : List AdmEvent :=
  [.arrive, .arrive, .arrive, .completeFast 0,
   .pumpDequeue, .pumpLaunch, .pumpDequeue, .pumpLaunch]

/-! ## Theorems -/

theorem alookup_aset_self {β : Type} (l : List (String × β)) (k : String) (v : β) :
    alookup (aset l k v) k = some v := by
  induction l with
  | nil => simp [aset, alookup]
  | cons hd tl ih =>
      obtain ⟨k0, v0⟩ := hd
      by_cases h : k0 = k
      · simp [aset, alookup, h]
      · simp [aset, alookup, h, ih]

theorem alookup_aset_ne {β : Type} (l : List (String × β)) (k k' : String) (v : β)
    (h : k' ≠ k) : alookup (aset l k v) k' = alookup l k' := by
  induction l with
  | nil => simp [aset, alookup, Ne.symm h]
  | cons hd tl ih =>
      obtain ⟨k0, v0⟩ := hd
      by_cases h0 : k0 = k
      · simp [aset, alookup, h0, Ne.symm h]
      · by_cases h1 : k0 = k'
        · subst h1
          simp [aset, alookup, h0]
        · simp [aset, alookup, h0, h1, ih]

theorem alookup_aerase_self {β : Type} (l : List (String × β)) (k : String) :
    alookup (aerase l k) k = none := by
  induction l with
  | nil => simp [aerase, alookup]
  | cons hd tl ih =>
      obtain ⟨k0, v0⟩ := hd
      by_cases h : k0 = k
      · simp [aerase, h, ih]
      · simp [aerase, alookup, h, ih]

theorem alookup_aerase_ne {β : Type} (l : List (String × β)) (k k' : String)
    (h : k' ≠ k) : alookup (aerase l k) k' = alookup l k' := by
  induction l with
  | nil => simp [aerase]
  | cons hd tl ih =>
      obtain ⟨k0, v0⟩ := hd
      by_cases h0 : k0 = k
      · simp [aerase, alookup, h0, ih, Ne.symm h]
      · simp [aerase, alookup, h0, ih]

/-- C6: for any nonce recorded by exchange_symmetric_key at time t,
every later handshake presenting the same nonce at any time in
[t, t + handshake_timeout) is rejected, returning false and leaving the
state unchanged. -/
theorem C6_nonce_replay_rejected
    (cfgTtl timeout : Int) (st : FiberState) (t now : Int)
    (encKey : Option Nat) (uuid nonce validator : String)
    (hrec : alookup st.nonces nonce = some t)
    (h1 : t ≤ now) (h2 : now < t + timeout) :
    exchange_symmetric_key cfgTtl timeout st now encKey uuid nonce validator
      = (false, st) := by
  have hlt : now - t < timeout := by omega
  simp [exchange_symmetric_key, replayHit, hrec, hlt]

/-- Witness for C6 at a concrete recorded nonce. -/
theorem C6_nonce_replay_rejected_witness :
    exchange_symmetric_key 10 30 ⟨[], [("n1", 0)]⟩ 5 (some 7) "u1" "n1" "v1"
      = (false, ⟨[], [("n1", 0)]⟩) :=
  C6_nonce_replay_rejected 10 30 ⟨[], [("n1", 0)]⟩ 0 5 (some 7) "u1" "n1" "v1"
    (by decide) (by decide) (by decide)

/-- C8: get_backend resolves a known name to its registered constructor,
falls back to the first registered constructor when the name is unknown
and the registry is non-empty, and fails with the no-backend-available
error exactly when the registry is empty. -/
theorem C8_registry_resolution :
    ∀ (β : Type) (backends : List (String × β)) (name : String),
      (∀ ctor, alookup backends name = some ctor →
          get_backend backends name = .ok ctor) ∧
      (∀ nm0 c0 rest, alookup backends name = none →
          backends = (nm0, c0) :: rest →
          get_backend backends name = .ok c0) ∧
      ((∃ msg, get_backend backends name = .error msg) ↔ backends = []) := by
  intro β backends name
  refine ⟨?_, ?_, ?_⟩
  · intro ctor h
    simp [get_backend, h]
  · intro nm0 c0 rest h hb
    subst hb
    simp [get_backend, h]
  · constructor
    · rintro ⟨msg, h⟩
      match hb : backends with
      | [] => rfl
      | (nm0, c0) :: rest =>
          rw [get_backend] at h
          match hl : alookup ((nm0, c0) :: rest) name with
          | some c => rw [hl] at h; exact absurd h (by simp)
          | none => rw [hl] at h; exact absurd h (by simp)
    · intro hb
      subst hb
      exact ⟨"No backends available. Check entry points configuration.", rfl⟩

/-- Witness for C8: unknown name with non-empty registry resolves to the
first registered constructor, and the empty registry errors. -/
theorem C8_registry_resolution_witness :
    get_backend [("llamacpp", 1), ("vllm", 2)] "ollama" = .ok 1 ∧
    (∃ msg, get_backend ([] : List (String × Nat)) "vllm" = .error msg) :=
  ⟨(C8_registry_resolution Nat [("llamacpp", 1), ("vllm", 2)] "ollama").2.1
      "llamacpp" 1 [("vllm", 2)] (by decide) rfl,
   (C8_registry_resolution Nat [] "vllm").2.2.mpr rfl⟩

/-- C10: decrypt_challenge_payload is total at its interface (each
failure yields none rather than an exception), and each call either
leaves the symmetric-key cache unchanged or, exactly when the looked-up
entry is expired, removes that single (validator, uuid) entry and
returns none, leaving every other entry untouched. -/
theorem C10_decrypt_frame :
    ∀ (keyTtl : Int) (st : FiberState) (now : Int) (v u : String)
      (p : FernetToken Plain),
      (∀ v' u', ¬(v' = v ∧ u' = u) →
          lookupSession (decrypt_challenge_payload keyTtl st now v u p).2 v' u'
            = lookupSession st v' u') ∧
      ((decrypt_challenge_payload keyTtl st now v u p).2 = st ∨
        ((decrypt_challenge_payload keyTtl st now v u p).1 = none ∧
         lookupSession (decrypt_challenge_payload keyTtl st now v u p).2 v u = none ∧
         ∃ e, lookupSession st v u = some e ∧ now > e.expiration)) := by
  intro keyTtl st now v u p
  rcases hv : alookup st.cache v with _ | inner
  · have hg : decrypt_challenge_payload keyTtl st now v u p = (none, st) := by
      simp only [decrypt_challenge_payload, hv]
    rw [hg]
    exact ⟨fun v' u' _ => rfl, Or.inl rfl⟩
  · rcases hu : alookup inner u with _ | entry
    · have hg : decrypt_challenge_payload keyTtl st now v u p = (none, st) := by
        simp only [decrypt_challenge_payload, hv, hu]
      rw [hg]
      exact ⟨fun v' u' _ => rfl, Or.inl rfl⟩
    · by_cases hexp : now > entry.expiration
      · have hg : decrypt_challenge_payload keyTtl st now v u p
            = (none, { st with cache := aset st.cache v (aerase inner u) }) := by
          simp only [decrypt_challenge_payload, hv, hu, if_pos hexp]
        rw [hg]
        constructor
        · intro v' u' hne
          by_cases hvv : v' = v
          · subst hvv
            have huu : u' ≠ u := fun huu => hne ⟨rfl, huu⟩
            simp only [lookupSession, alookup_aset_self, hv]
            exact alookup_aerase_ne inner u u' huu
          · simp only [lookupSession]
            rw [alookup_aset_ne st.cache v v' _ hvv]
        · refine Or.inr ⟨rfl, ?_, ⟨entry, by simp [lookupSession, hv, hu], hexp⟩⟩
          simp only [lookupSession, alookup_aset_self]
          exact alookup_aerase_self inner u
      · rcases hd : fernetDecrypt entry.fernetKey (some keyTtl) now p with _ | plain
        · have hg : decrypt_challenge_payload keyTtl st now v u p = (none, st) := by
            simp only [decrypt_challenge_payload, hv, hu, if_neg hexp, hd]
          rw [hg]
          exact ⟨fun v' u' _ => rfl, Or.inl rfl⟩
        · rcases hj : jsonLoads plain with _ | d
          · have hg : decrypt_challenge_payload keyTtl st now v u p = (none, st) := by
              simp only [decrypt_challenge_payload, hv, hu, if_neg hexp, hd, hj]
            rw [hg]
            exact ⟨fun v' u' _ => rfl, Or.inl rfl⟩
          · have hg : decrypt_challenge_payload keyTtl st now v u p = (some d, st) := by
              simp only [decrypt_challenge_payload, hv, hu, if_neg hexp, hd, hj]
            rw [hg]
            exact ⟨fun v' u' _ => rfl, Or.inl rfl⟩

/-- Witness for C10 on a concrete expired entry: the sibling session of
another validator is untouched. -/
theorem C10_decrypt_frame_witness :
    lookupSession
      (decrypt_challenge_payload 10
        ⟨[("v1", [("u1", ⟨7, 10⟩)]), ("v2", [("u2", ⟨9, 99⟩)])], []⟩
        20 "v1" "u1" (fernetEncrypt 7 0 (.notJson "x"))).2 "v2" "u2"
      = some ⟨9, 99⟩ := by
  have h := (C10_decrypt_frame 10
    ⟨[("v1", [("u1", ⟨7, 10⟩)]), ("v2", [("u2", ⟨9, 99⟩)])], []⟩
    20 "v1" "u1" (fernetEncrypt 7 0 (.notJson "x"))).1 "v2" "u2" (by decide)
  rw [h]
  decide

/-- If a handshake succeeds, the resulting state carries the fresh
session entry for (validator, uuid) with expiration now + ttl, on top
of the recorded nonce. -/
theorem exchange_true_state
    (cfgTtl timeout : Int) (st : FiberState) (now : Int) (k : Nat)
    (uuid nonce validator : String) (st1 : FiberState)
    (h : exchange_symmetric_key cfgTtl timeout st now (some k) uuid nonce validator
          = (true, st1)) :
    st1 = { cache := aset st.cache validator
              (aset ((alookup st.cache validator).getD []) uuid ⟨k, now + cfgTtl⟩),
            nonces := aset st.nonces nonce now } := by
  rw [exchange_symmetric_key] at h
  by_cases hc : replayHit st.nonces nonce now timeout = true
  · rw [if_pos hc] at h
    exact absurd h (by simp)
  · rw [if_neg hc] at h
    simp only [Prod.mk.injEq] at h
    exact h.2.symm

/-- C5 counterexample: with ttl 10, a session inserted at time 0 and a
ciphertext produced at time 0, decryption at time exactly 10 = t + T
still succeeds (both expiry comparisons in the source are strict), and
the cache entry is not deleted, contradicting failure at every time
greater than or equal to t + T. -/
theorem C5_expiry_boundary_counterexample :
    decrypt_challenge_payload 10
        (exchange_symmetric_key 10 30 ⟨[], []⟩ 0 (some 7) "u1" "n1" "v1").2
        10 "v1" "u1"
        (fernetEncrypt 7 0 (.dict (.good none
          ⟨some "hi", none, none, 8, 700, 950, none, none⟩)))
      = (some (.good none ⟨some "hi", none, none, 8, 700, 950, none, none⟩),
         ⟨[("v1", [("u1", ⟨7, 10⟩)])], [("n1", 0)]⟩) := by
  decide

/-- C5 amended: for a session inserted via a successful handshake at
time t with ttl T, decrypt_challenge_payload succeeds for well-formed
ciphertexts produced with the session key at any time c in [t, d] when
the decryption time d lies in [t, t + T]; at any time strictly greater
than t + T it fails, returning none and deleting the cache entry. -/
theorem C5_amended_session_ttl :
    ∀ (T timeout : Int) (st : FiberState) (t : Int) (k : Nat)
      (u n v : String) (st1 : FiberState),
      exchange_symmetric_key T timeout st t (some k) u n v = (true, st1) →
      (∀ (c d : Int) (dct : PlainDict), t ≤ c → c ≤ d → d ≤ t + T →
          decrypt_challenge_payload T st1 d v u (fernetEncrypt k c (.dict dct))
            = (some dct, st1)) ∧
      (∀ (d : Int) (payload : FernetToken Plain), d > t + T →
          (decrypt_challenge_payload T st1 d v u payload).1 = none ∧
          lookupSession (decrypt_challenge_payload T st1 d v u payload).2 v u
            = none) := by
  intro T timeout st t k u n v st1 h
  have hst1 := exchange_true_state T timeout st t k u n v st1 h
  subst hst1
  have h1 : alookup (aset st.cache v
      (aset ((alookup st.cache v).getD []) u ⟨k, t + T⟩)) v
      = some (aset ((alookup st.cache v).getD []) u ⟨k, t + T⟩) :=
    alookup_aset_self _ _ _
  have h2 : alookup (aset ((alookup st.cache v).getD []) u ⟨k, t + T⟩) u
      = some ⟨k, t + T⟩ :=
    alookup_aset_self _ _ _
  constructor
  · intro c d dct hc1 hc2 hc3
    have hne : ¬ d > t + T := by omega
    have hb1 : ¬ (c + T < d) := by omega
    have hb2 : ¬ (d + fernetMaxClockSkew < c) := by
      simp only [fernetMaxClockSkew]
      omega
    simp [decrypt_challenge_payload, h1, h2, hne, fernetDecrypt,
          fernetEncrypt, hb1, hb2, jsonLoads]
  · intro d payload hd
    have hg : decrypt_challenge_payload T
        ⟨aset st.cache v (aset ((alookup st.cache v).getD []) u ⟨k, t + T⟩),
         aset st.nonces n t⟩ d v u payload
        = (none, ⟨aset (aset st.cache v
              (aset ((alookup st.cache v).getD []) u ⟨k, t + T⟩)) v
              (aerase (aset ((alookup st.cache v).getD []) u ⟨k, t + T⟩) u),
            aset st.nonces n t⟩) := by
      simp only [decrypt_challenge_payload, h1, h2, if_pos hd]
    rw [hg]
    refine ⟨rfl, ?_⟩
    simp only [lookupSession, alookup_aset_self]
    exact alookup_aerase_self _ _

/-- Witness for C5 amended: a concrete handshake at time 0 with ttl 10,
challenge encrypted at time 0, decrypted successfully at time 5; the
same session fails with deletion at time 11. -/
theorem C5_amended_session_ttl_witness :
    decrypt_challenge_payload 10 ⟨[("v1", [("u1", ⟨7, 10⟩)])], [("n1", 0)]⟩
        5 "v1" "u1"
        (fernetEncrypt 7 0 (.dict (.good none
          ⟨some "hi", none, none, 8, 700, 950, none, none⟩)))
      = (some (.good none ⟨some "hi", none, none, 8, 700, 950, none, none⟩),
         ⟨[("v1", [("u1", ⟨7, 10⟩)])], [("n1", 0)]⟩) ∧
    lookupSession
      (decrypt_challenge_payload 10 ⟨[("v1", [("u1", ⟨7, 10⟩)])], [("n1", 0)]⟩
        11 "v1" "u1" (fernetEncrypt 7 0 (.notJson "x"))).2 "v1" "u1" = none := by
  have h := C5_amended_session_ttl 10 30 ⟨[], []⟩ 0 7 "u1" "n1" "v1"
    ⟨[("v1", [("u1", ⟨7, 10⟩)])], [("n1", 0)]⟩ (by decide)
  exact ⟨h.1 0 5 (.good none ⟨some "hi", none, none, 8, 700, 950, none, none⟩)
            (by decide) (by decide) (by decide),
         (h.2 11 (fernetEncrypt 7 0 (.notJson "x")) (by decide)).2⟩

/-- C7 counterexample: the vLLM adapter, on a reply whose server usage
is (3, 5, 8) and which carries a tool call with server finish_reason
stop, returns zero-filled usage and finish_reason stop: usage is not
populated from the server response and the tool_calls normalization is
not performed, refuting the claim for the vllm variant (the ollama
variant behaves identically). -/
theorem C7_vllm_counterexample :
    vllm_chat_completion c7Resp
      = some { content := "ok",
               tool_calls := some [⟨"id1", "function", "f", ""⟩],
               finish_reason := "stop", usage := ⟨0, 0, 0⟩ } ∧
    c7Resp.usage = some ⟨some 3, some 5, some 8⟩ ∧
    ollama_chat_completion c7Resp
      = some { content := "ok",
               tool_calls := some [⟨"id1", "function", "f", ""⟩],
               finish_reason := "stop", usage := ⟨0, 0, 0⟩ } := by
  decide

/-- C7 amended: the llamacpp adapter populates usage from the upstream
reply (zero-filling missing fields and defaulting to all-zero exactly
when the server omits the block; the field is never absent by type) and
normalizes finish_reason to tool_calls whenever tool calls are present
and the server reported stop (or no finish reason); the vllm and ollama
adapters instead always return zero-filled usage and finish_reason
stop, whatever the server reported. -/
theorem C7_usage_finish_reason :
    (∀ (r : UpstreamResponse) (ch : UpstreamChoice) (rest : List UpstreamChoice),
        r.choices = ch :: rest →
        ∃ out, llamacpp_chat_completion r = some out ∧
          out.usage = usageFromUpstream r ∧
          (∀ tc tcs, ch.message.tool_calls = some (tc :: tcs) →
              pyOrStr ch.finish_reason "stop" = "stop" →
              out.finish_reason = "tool_calls")) ∧
    (∀ r out, vllm_chat_completion r = some out →
        out.usage = ⟨0, 0, 0⟩ ∧ out.finish_reason = "stop") ∧
    (∀ r out, ollama_chat_completion r = some out →
        out.usage = ⟨0, 0, 0⟩ ∧ out.finish_reason = "stop") := by
  refine ⟨?_, ?_, ?_⟩
  · intro r ch rest hch
    rcases htc : ch.message.tool_calls with _ | tcs
    · refine ⟨⟨ch.message.content.getD "", none,
          pyOrStr ch.finish_reason "stop", usageFromUpstream r⟩, ?_, rfl, ?_⟩
      · simp [llamacpp_chat_completion, hch, htc, usageFromUpstream]
      · intro tc tcs hh
        simp at hh
    · cases tcs with
      | nil =>
          refine ⟨⟨ch.message.content.getD "", none,
              pyOrStr ch.finish_reason "stop", usageFromUpstream r⟩, ?_, rfl, ?_⟩
          · simp [llamacpp_chat_completion, hch, htc, usageFromUpstream]
          · intro tc tcs hh
            simp at hh
      | cons tc0 tcs0 =>
          by_cases hf : pyOrStr ch.finish_reason "stop" = "stop"
          · refine ⟨⟨ch.message.content.getD "",
                some ((tc0 :: tcs0).map mapToolCall), "tool_calls",
                usageFromUpstream r⟩, ?_, rfl, fun _ _ _ _ => rfl⟩
            simp [llamacpp_chat_completion, hch, htc, hf, usageFromUpstream]
          · refine ⟨⟨ch.message.content.getD "",
                some ((tc0 :: tcs0).map mapToolCall),
                pyOrStr ch.finish_reason "stop",
                usageFromUpstream r⟩, ?_, rfl, ?_⟩
            · simp [llamacpp_chat_completion, hch, htc, hf, usageFromUpstream]
            · intro tc tcs hh hf2
              exact absurd hf2 hf
  · intro r out h
    rcases hch : r.choices with _ | ⟨ch, rest⟩
    · rw [vllm_chat_completion, hch] at h
      cases h
    · rw [vllm_chat_completion, hch] at h
      simp only [Option.some.injEq] at h
      rw [← h]
      exact ⟨rfl, rfl⟩
  · intro r out h
    rcases hch : r.choices with _ | ⟨ch, rest⟩
    · rw [ollama_chat_completion, hch] at h
      cases h
    · rw [ollama_chat_completion, hch] at h
      simp only [Option.some.injEq] at h
      rw [← h]
      exact ⟨rfl, rfl⟩

/-- Witness for C7 amended at the concrete reply c7Resp: llamacpp
propagates the (3, 5, 8) usage and normalizes to tool_calls, vllm
returns zeros and stop. -/
theorem C7_usage_finish_reason_witness :
    (∃ out, llamacpp_chat_completion c7Resp = some out ∧
        out.usage = usageFromUpstream c7Resp ∧ out.finish_reason = "tool_calls") ∧
    ({ content := "ok", tool_calls := some [⟨"id1", "function", "f", ""⟩],
       finish_reason := "stop", usage := ⟨0, 0, 0⟩ } : LLMResponse).usage
      = ⟨0, 0, 0⟩ := by
  constructor
  · obtain ⟨out, h1, h2, h3⟩ := C7_usage_finish_reason.1 c7Resp
      ⟨⟨some "ok", some [⟨"id1", "function", ⟨"f", ""⟩⟩]⟩, some "stop"⟩ [] (by decide)
    exact ⟨out, h1, h2, h3 ⟨"id1", "function", ⟨"f", ""⟩⟩ [] (by decide) (by decide)⟩
  · have h := C7_usage_finish_reason.2.1 c7Resp
      { content := "ok", tool_calls := some [⟨"id1", "function", "f", ""⟩],
        finish_reason := "stop", usage := ⟨0, 0, 0⟩ } (by decide)
    exact h.1

/-- C9: in normal (non-test) mode every chat_completion invocation made
by the inference handler carries the node's configured default_model,
and the handler's outcome is invariant under the peer-supplied model
field of the envelope. -/
theorem C9_default_model :
    ∀ (cfg : MinerConfig) (req : InferenceRequest)
      (b : BackendCall → Except String LLMResponse) (rnd : String) (ms : Nat),
      cfg.test_mode = false →
      (∀ res call, inference cfg req b rnd ms = .ok (res, some call) →
          call.model = cfg.default_model) ∧
      (∀ m1 m2, inference cfg { req with model := m1 } b rnd ms
              = inference cfg { req with model := m2 } b rnd ms) := by
  intro cfg req b rnd ms hmode
  constructor
  · intro res call h
    simp only [inference, hmode, Bool.false_eq_true, if_false] at h
    split at h
    · cases h
    · split at h
      · cases h
      · simp only [Except.ok.injEq, Prod.mk.injEq, Option.some.injEq] at h
        rw [← h.2]
  · intro m1 m2
    rfl

/-- Witness for C9: a concrete normal-mode run whose recorded backend
call used the configured model, not the peer suggestion. -/
theorem C9_default_model_witness :
    (⟨[⟨"user", some "hi"⟩], "node-choice", 8, 700, 950, none, none⟩
        : BackendCall).model
      = (⟨false, "node-choice", "llamacpp", 3600, 30, 10⟩ : MinerConfig).default_model :=
  (C9_default_model ⟨false, "node-choice", "llamacpp", 3600, 30, 10⟩
      ⟨some "hi", none, some "peer-suggestion", 8, 700, 950, none, none⟩
      (fun _ => .ok ⟨"out", none, "stop", ⟨1, 1, 2⟩⟩) "x" 3 rfl).1
    ⟨"out", 3, none, "stop", ⟨1, 1, 2⟩⟩
    ⟨[⟨"user", some "hi"⟩], "node-choice", 8, 700, 950, none, none⟩
    rfl

/-- C1: a challenge whose headers name a live session and whose body
decrypts under the session key to a well-formed envelope, and whose
inference succeeds, is answered 200 with the Fernet encryption, under
the same session key, of the inference result (with any restored timing
metadata re-attached), content type application/octet-stream, and
headers carrying the session UUID and the node hotkey address; the
session cache is left unchanged. -/
theorem C1_challenge_roundtrip :
    ∀ (cfg : MinerConfig) (srv : MinerServerState) (atCapacity : Bool)
      (now c : Int) (v u : String) (k : Nat) (exp : Int)
      (inner : List (String × SessionEntry))
      (meta : Option MetaDict) (req : InferenceRequest)
      (backend : BackendCall → Except String LLMResponse) (rnd : String)
      (ms : Nat) (resp : InferenceResponse) (rec : Option BackendCall),
      srv.semInitialized = true → srv.queueInitialized = true →
      alookup srv.fiberSt.cache v = some inner →
      alookup inner u = some ⟨k, exp⟩ →
      now ≤ exp → c ≤ now → now ≤ c + cfg.fiber_key_ttl_seconds →
      inference cfg req backend rnd ms = .ok (resp, rec) →
      ∃ md : Option MetaOut,
        receive_encrypted_challenge cfg srv atCapacity now v u
            (fernetEncrypt k c (.dict (.good meta req))) backend rnd ms
          = (⟨200, some "application/octet-stream",
              [("x-fiber-symmetric-key-uuid", u),
               ("x-fiber-miner-hotkey-ss58", srv.minerHotkey.getD "")],
              some (fernetEncrypt k now ⟨resp, md⟩)⟩, srv) := by
  intro cfg srv atCapacity now c v u k exp inner meta req backend rnd ms resp rec
  intro hsem hq hv hu hexp hc1 hc2 hinf
  obtain ⟨fs, si, qi, br, mh⟩ := srv
  simp only at hsem hq hv
  subst hsem
  subst hq
  have hnexp : ¬ (now > exp) := by omega
  have hdec : decrypt_challenge_payload cfg.fiber_key_ttl_seconds fs now
      v u (fernetEncrypt k c (.dict (.good meta req)))
        = (some (.good meta req), fs) := by
    have hb1 : ¬ (c + cfg.fiber_key_ttl_seconds < now) := by omega
    have hb2 : ¬ (now + fernetMaxClockSkew < c) := by
      simp only [fernetMaxClockSkew]
      omega
    simp [decrypt_challenge_payload, hv, hu, hnexp, fernetDecrypt,
          fernetEncrypt, hb1, hb2, jsonLoads]
  have hproc : process_request cfg fs now v u
      (fernetEncrypt k c (.dict (.good meta req))) backend rnd ms
        = (.ok (fernetEncrypt k now
            ⟨resp, (metaTiming meta).map (fun t => ⟨timingAddOpen
              (timingAddFinished t "miner_inference" now) "miner_response" now⟩)⟩),
           fs) := by
    rcases hpt : metaTiming meta with _ | t
    · simp [process_request, hdec, hpt, hinf, hv, hu, hnexp]
    · simp [process_request, hdec, hpt, hinf, hv, hu, hnexp]
  refine ⟨(metaTiming meta).map (fun t => ⟨timingAddOpen
      (timingAddFinished t "miner_inference" now) "miner_response" now⟩), ?_⟩
  simp [receive_encrypted_challenge, hproc]

/-- Witness for C1 at a concrete live session in test mode. -/
theorem C1_challenge_roundtrip_witness :
    (receive_encrypted_challenge c1cfg c1srv false 5 "v1" "u1"
        (fernetEncrypt 7 0 (.dict (.good none c1req))) c1backend "r" 3).1.status
      = 200 := by
  obtain ⟨md, h⟩ := C1_challenge_roundtrip c1cfg c1srv false 5 0 "v1" "u1" 7 10
    [("u1", ⟨7, 10⟩)] none c1req c1backend "r" 3 c1resp none
    rfl rfl rfl rfl (by decide) (by decide) (by decide) rfl
  rw [h]

/-- C2: with the backend readiness flag false but the admission
structures initialized, a challenge with a live session is processed in
full and answered 200 (not 503), and the availability endpoint reports
available true: neither handler consults the backend_ready flag that
the readiness poller maintains. -/
theorem C2_backend_ready_ignored :
    c2srv.backendReady = false ∧
    (receive_encrypted_challenge c2cfg c2srv false 5 "v1" "u1"
        (fernetEncrypt 7 0 (.dict (.good none c2req))) c2backend "r" 3).1.status
      = 200 ∧
    check_availability c2srv = (200, .available) := by
  refine ⟨rfl, ?_, rfl⟩
  rfl

/-- C3: with max_concurrent_requests = 1, the overload trace reaches a
state with two workers concurrently executing the pipeline: the pump
releases its permit at worker launch instead of worker completion, so
the configured bound is exceeded. -/
theorem C3_concurrency_bound_violated :
    inFlight (runAdm 1 c3Trace) = 2 ∧
    (runAdm 1 c3Trace).runningQueued = [1, 2] := by
  decide

/-- C4 counterexample: in the same one-permit overload trace the third
arrival (request 2) has started service while the second arrival
(request 1 = the (k - N)-th for k = 3, N = 1) has not completed, so the
k-th arrival can start before the (k - N)-th completes. -/
theorem C4_start_before_completion_counterexample :
    2 ∈ (runAdm 1 c3Trace).queuedLaunchOrder ∧
    1 ∉ (runAdm 1 c3Trace).completed ∧
    1 ∈ (runAdm 1 c3Trace).runningQueued := by
  decide

/-- Every scheduler step preserves the pump ordering invariant: launched
requests, then the dequeued-but-unlaunched one, then the queue, spell
the enqueue order. -/
theorem admStep_pumpView (s : AdmState) (e : AdmEvent)
    (h : pumpView s = s.enqueueOrder) :
    pumpView (admStep s e) = (admStep s e).enqueueOrder := by
  cases e with
  | arrive =>
      by_cases hs : s.sem = 0
      · simp only [admStep, if_pos hs, pumpView] at h ⊢
        rw [← List.append_assoc, h]
      · simp only [admStep, if_neg hs, pumpView] at h ⊢
        exact h
  | pumpDequeue =>
      rcases hslot : s.pumpSlot with _ | r
      · rcases hp : s.pending with _ | ⟨q, rest⟩
        · simp [admStep, hslot, hp, pumpView] at h ⊢
          simpa [hslot, hp] using h
        · simp only [admStep, hslot, hp, pumpView] at h ⊢
          simpa [hslot, hp] using h
      · simp only [admStep, hslot, pumpView] at h ⊢
        simpa [hslot] using h
  | pumpLaunch =>
      rcases hslot : s.pumpSlot with _ | r
      · simp only [admStep, hslot, pumpView] at h ⊢
        simpa [hslot] using h
      · by_cases hs : s.sem = 0
        · simp only [admStep, hslot, if_pos hs, pumpView] at h ⊢
          simpa [hslot] using h
        · simp only [admStep, hslot, if_neg hs, pumpView] at h ⊢
          rw [← h]
          simp [hslot]
  | completeFast r =>
      by_cases hr : s.runningFast.contains r
      · simp only [admStep, if_pos hr, pumpView] at h ⊢
        exact h
      · simp only [admStep, if_neg hr]
        exact h
  | completeQueued r =>
      by_cases hr : s.runningQueued.contains r
      · simp only [admStep, if_pos hr, pumpView] at h ⊢
        exact h
      · simp only [admStep, if_neg hr]
        exact h

/-- The pump ordering invariant holds along any trace from any state
satisfying it. -/
theorem foldl_pumpView (evs : List AdmEvent) :
    ∀ (s : AdmState), pumpView s = s.enqueueOrder →
      pumpView (evs.foldl admStep s) = (evs.foldl admStep s).enqueueOrder := by
  induction evs with
  | nil => intro s h; exact h
  | cons e rest ih =>
      intro s h
      exact ih (admStep s e) (admStep_pumpView s e h)

/-- C4 amended, FIFO part: along every trace, pump-launched (queued)
requests are launched in exactly their enqueue order: the launch order
extends to the full enqueue order by appending the not-yet-launched
queue contents. -/
theorem C4_fifo_launch_order :
    ∀ (N : Nat) (evs : List AdmEvent),
      pumpView (runAdm N evs) = (runAdm N evs).enqueueOrder ∧
      ∃ t, (runAdm N evs).queuedLaunchOrder ++ t = (runAdm N evs).enqueueOrder := by
  intro N evs
  have h : pumpView (runAdm N evs) = (runAdm N evs).enqueueOrder :=
    foldl_pumpView evs (initialAdmState N) rfl
  refine ⟨h, ⟨(match (runAdm N evs).pumpSlot with | some r => [r] | none => [])
      ++ (runAdm N evs).pending, ?_⟩⟩
  rw [← h]
  simp [pumpView]
